import Mathlib

/-!
Verification of the Aurora init program (`Source/main.cpp`).

The development shallowly embeds the program's mount-table pipeline
(`trimNewLine`, `parseMountOptions`, `parseMountPoint`, `mountFilesystems`)
and the supervision loop of `NeonMain`.  C strings are modelled as
`List Char` buffers terminated by a NUL character; `strtok` tokenisation,
`strcpy` in-place writes and `atoi` are embedded directly from their C
semantics.  External collaborators (the log sink, the filesystem access
check, `fork`/`waitpid` results and the mount syscall results) are inputs
of the model; the observable behaviour (log emissions, mount attempts,
fork and wait activity) is recorded as a list of events.
-/

namespace Aurora

/-- The NUL terminator of a C string. -/
def nulChar : Char := Char.ofNat 0

/-- `strcpy`-style write: store the characters `cs` into `buf` starting at
position `p` (one `List.set` per byte; out-of-range stores are no-ops,
which never happens for the in-bounds writes the program performs). -/
def strcpyAt : List Char → Nat → List Char → List Char
  | buf, _, [] => buf
  | buf, p, c :: cs => strcpyAt (buf.set p c) (p + 1) cs

/-- Worker for `strtokAll`: accumulates the current token (reversed). -/
def tokAux (d : Char → Bool) : List Char → List Char → List (List Char)
  | acc, [] => if acc.isEmpty then [] else [acc.reverse]
  | acc, c :: cs =>
    if d c then
      if acc.isEmpty then tokAux d [] cs
      else acc.reverse :: tokAux d [] cs
    else tokAux d (c :: acc) cs

/-- The token sequence produced by repeated `strtok` calls with delimiter
set `d`: maximal runs of non-delimiter characters, empty tokens never
returned (runs of delimiters collapse, leading/trailing ones are skipped). -/
def strtokAll (d : Char → Bool) (cs : List Char) : List (List Char) :=
  tokAux d [] cs

/-- Delimiter set `","` used by `parseMountOptions`. -/
def isComma (c : Char) : Bool := c == ','

/-- Delimiter set `" \t"` used by `parseMountPoint`. -/
def isFieldSep (c : Char) : Bool := c == ' ' || c == '\t'

/-- Linux `MS_RDONLY`. -/
def MS_RDONLY : Nat := 1
/-- Linux `MS_NOSUID`. -/
def MS_NOSUID : Nat := 2
/-- Linux `MS_NODEV`. -/
def MS_NODEV : Nat := 4
/-- Linux `MS_NOEXEC`. -/
def MS_NOEXEC : Nat := 8
/-- Linux `MS_SYNCHRONOUS`. -/
def MS_SYNCHRONOUS : Nat := 16
/-- Linux `MS_DIRSYNC`. -/
def MS_DIRSYNC : Nat := 128
/-- Linux `MS_NOATIME`. -/
def MS_NOATIME : Nat := 1024
/-- Linux `MS_RELATIME`. -/
def MS_RELATIME : Nat := 2097152

/-- The recognized-option table of `parseMountOptions`: the flag bit of a
recognized token, `none` for any other token. -/
def optionFlag (t : List Char) : Option Nat :=
  if t = "ro".data then some MS_RDONLY
  else if t = "noatime".data then some MS_NOATIME
  else if t = "relatime".data then some MS_RELATIME
  else if t = "nosuid".data then some MS_NOSUID
  else if t = "nodev".data then some MS_NODEV
  else if t = "noexec".data then some MS_NOEXEC
  else if t = "sync".data then some MS_SYNCHRONOUS
  else if t = "dirsync".data then some MS_DIRSYNC
  else none

/-- The `while (token)` loop of `parseMountOptions`: for each token, a
recognized token ORs its flag bit into `flags`; any other token is
`strcpy`-ed (with its NUL terminator) into the original buffer at the
`current` cursor.  In both cases `current` then advances by the token's
length — exactly as in the source, where `current += strlen(token)` runs
unconditionally.  Returns (flags, final cursor, final buffer). -/
def optLoop : List (List Char) → Nat → Nat → List Char → Nat × Nat × List Char
  | [], flags, current, buf => (flags, current, buf)
  | t :: rest, flags, current, buf =>
    match optionFlag t with
    | some bit => optLoop rest (flags ||| bit) (current + t.length) buf
    | none =>
        optLoop rest flags (current + t.length)
          (strcpyAt buf current (t ++ [nulChar]))

/-- Reading a C string out of a buffer: the characters before the first NUL. -/
def cStringOf (buf : List Char) : List Char :=
  buf.takeWhile (fun c => c ≠ nulChar)

/-- `parseMountOptions`: tokenises the options string on commas (over a
`strdup`-ed copy, so writes into the original buffer do not disturb
tokenisation), runs the flag/copy loop, then performs the trailing
`*current = 0` store.  Result: the flag bitmask and the residual C string
read back from the mutated buffer. -/
def parseMountOptions (opts : String) : Nat × String :=
  let r := optLoop (strtokAll isComma opts.data) 0 0 (opts.data ++ [nulChar])
  (r.1, String.mk (cStringOf (r.2.2.set r.2.1 nulChar)))

/-- Digit-accumulation loop of `atoi`. -/
def atoiDigits : List Char → Nat → Nat
  | [], acc => acc
  | c :: cs, acc => if c.isDigit then atoiDigits cs (acc * 10 + (c.toNat - 48)) else acc

/-- C `isspace` set. -/
def isSpaceByte (c : Char) : Bool :=
  c == ' ' || c == '\t' || c == '\n' || c == '\x0b' || c == '\x0c' || c == '\r'

/-- C `atoi`: skip leading whitespace, optional sign, then a digit prefix;
anything non-numeric yields 0. -/
def atoi (cs : List Char) : Int :=
  match cs.dropWhile isSpaceByte with
  | '-' :: rest => - (atoiDigits rest 0 : Int)
  | '+' :: rest => (atoiDigits rest 0 : Int)
  | other => (atoiDigits other 0 : Int)

/-- The `MountPoint` record of the source. -/
structure MountPoint where
  Source : String
  Target : String
  FilesystemType : String
  Options : String
  Frequency : Int
  FsckPassNumber : Int
  deriving DecidableEq, Repr

/-- A stand-in value for the uninitialised stack `MountPoint entry;` of the
mount loop (the program never reads it before assigning it). -/
def uninitEntry : MountPoint := ⟨"", "", "", "", 0, 0⟩

/-- `parseMountPoint`: split the line on space/tab into at most
`MAX_FIELDS = 6` fields (extra tokens are dropped); with fewer than 4
fields return 0 leaving `entry` as it was; otherwise return 1 together with
the fully assigned entry (fields 5 and 6 default to 0 when absent). -/
def parseMountPoint (line : String) (entry : MountPoint) : Int × MountPoint :=
  let fields := (strtokAll isFieldSep line.data).take 6
  let fieldCount := fields.length
  if fieldCount < 4 then (0, entry)
  else
    (1,
      { Source := String.mk (fields.getD 0 [])
        Target := String.mk (fields.getD 1 [])
        FilesystemType := String.mk (fields.getD 2 [])
        Options := String.mk (fields.getD 3 [])
        Frequency := if 5 ≤ fieldCount then atoi (fields.getD 4 []) else 0
        FsckPassNumber := if 6 ≤ fieldCount then atoi (fields.getD 5 []) else 0 })

/-- `trimNewLine`: drop a single trailing newline, if present. -/
def trimNewLine (s : String) : String :=
  if s.data.getLast? = some '\n' then String.mk s.data.dropLast else s

/-- Observable behaviour of the program: error-log emissions, mount
attempts, fork calls and returned wait calls.  (Trace/info-level log lines
and the per-entry mount-failure log, which depend only on syscall results
and never influence control flow, are not recorded.) -/
inductive Event where
  | openFailLog : Event
  | skipLineLog : Nat → Event
  | mountAttempt : String → String → String → Nat → String → Event
  | accessFailLog : Event
  | forkEv : Nat → Event
  | waitEv : Nat → Nat → Event
  deriving DecidableEq, Repr

/-- The skip condition `line[0] == '#' || strlen(line) == 0` (reading
`line[0]` of an empty C string yields the NUL terminator). -/
def skippableLine (line : String) : Bool :=
  line.data.headD nulChar == '#' || line.data.isEmpty

/-- The `while (fgets(...))` body of `mountFilesystems`, over the file's
lines: number each line from `n`, trim its newline, skip comments and empty
lines, parse the rest; a parsed entry has its options translated and a
mount attempted, a failed parse logs a skip message; either way processing
continues with the next line.  `junk` is the uninitialised `MountPoint
entry;` declared in the loop body. -/
def processLines (junk : MountPoint) : List String → Nat → List Event
  | [], _ => []
  | l :: rest, n =>
    let line := trimNewLine l
    if skippableLine line then processLines junk rest (n + 1)
    else
      let pr := parseMountPoint line junk
      if pr.1 ≠ 0 then
        let entry := pr.2
        let mo := parseMountOptions entry.Options
        Event.mountAttempt entry.Source entry.Target entry.FilesystemType mo.1 mo.2
          :: processLines junk rest (n + 1)
      else Event.skipLineLog n :: processLines junk rest (n + 1)

/-- `EXIT_SUCCESS`. -/
def EXIT_SUCCESS : Int := 0
/-- `EXIT_FAILURE`. -/
def EXIT_FAILURE : Int := 1

/-- `mountFilesystems`: the mount table's content is `none` when
`fopen("/etc/fstab", "r")` fails, in which case the failure is logged and
`EXIT_FAILURE` returned at once; otherwise every line is processed and
`EXIT_SUCCESS` returned. -/
def mountFilesystems (junk : MountPoint) : Option (List String) → List Event × Int
  | none => ([Event.openFailLog], EXIT_FAILURE)
  | some lines => (processLines junk lines 1, EXIT_SUCCESS)

/-- Glibc `WIFEXITED`: `(status & 0x7f) == 0`. -/
def wifexited (status : Nat) : Bool := status % 128 == 0

/-- The supervision loop after its first `fork`, driven by the statuses
successive `waitpid(pid, &status, 0)` calls return for the current child
(`waits` lists those statuses in order; when it is exhausted the supervisor
is blocked in `waitpid` and no further event occurs).  A status that is not
a normal exit re-enters the wait (`goto continue_waiting`) on the same pid;
a normal exit is logged and a replacement child forked.  Fresh pids are
modelled by incrementing. -/
def superviseFrom (pid : Nat) : List Nat → List Event
  | [] => []
  | s :: rest =>
    if wifexited s then
      Event.waitEv pid s :: Event.forkEv (pid + 1) :: superviseFrom (pid + 1) rest
    else Event.waitEv pid s :: superviseFrom pid rest

/-- The whole `for (;;)` supervision loop: fork the first child (pid 1 in
the model), then wait/respawn forever. -/
def supervise (waits : List Nat) : List Event :=
  Event.forkEv 1 :: superviseFrom 1 waits

/-- `NeonMain` after the environment bootstrap: run the mount phase —
discarding its result, exactly as the source's bare `mountFilesystems();`
statement does — then check execute access on the shell path (`shellOk` is
the collaborator's answer); on failure log and return `EXIT_FAILURE`,
otherwise enter the supervision loop, which never returns (`none`).
The SIGHUP handler installation and self-signal, which only log, are not
recorded. -/
def NeonMain (junk : MountPoint) (fstab : Option (List String)) (shellOk : Bool)
    (waits : List Nat) : List Event × Option Int :=
  let m := mountFilesystems junk fstab
  if shellOk then (m.1 ++ supervise waits, none)
  else (m.1 ++ [Event.accessFailLog], some EXIT_FAILURE)

/-- Is this event a fork call? -/
def isForkEv : Event → Bool
  | Event.forkEv _ => true
  | _ => false

/-- Number of fork calls recorded in an event list. -/
def forkCount (evs : List Event) : Nat := (evs.filter isForkEv).length

/-- Is this event a wait call that returned a normal-exit status? -/
def isExitedWait : Event → Bool
  | Event.waitEv _ s => wifexited s
  | _ => false

/-- Number of wait calls that returned a normal-exit status. -/
def exitedWaitCount (evs : List Event) : Nat := (evs.filter isExitedWait).length

/-- Adjacent-event discipline of re-waiting: a wait that returned a
non-exit status is immediately followed (if anything follows) by another
wait on the same pid — in particular not by a fork. -/
def rewaitOk (e₁ e₂ : Event) : Prop :=
  ∀ p s, e₁ = Event.waitEv p s → wifexited s = false → ∃ s', e₂ = Event.waitEv p s'

/-- Adjacent-event discipline of respawning: a fork of child `q` is
immediately preceded by a wait that returned a normal-exit status for the
current child, of which `q` is the replacement. -/
def respawnPrec (e₁ e₂ : Event) : Prop :=
  ∀ q, e₂ = Event.forkEv q →
    ∃ p s, e₁ = Event.waitEv p s ∧ wifexited s = true ∧ q = p + 1

/-- The flags accumulator of `optLoop` ORs in exactly the flag bits of the
recognized tokens of the list, in order. -/
theorem optLoop_flags (ts : List (List Char)) :
    ∀ f cur buf, (optLoop ts f cur buf).1
      = f ||| (ts.filterMap optionFlag).foldr (fun a b => a ||| b) 0 := by
  induction ts with
  | nil => intro f cur buf; simp [optLoop]
  | cons t rest ih =>
    intro f cur buf
    cases h : optionFlag t with
    | none => simp [optLoop, h, ih]
    | some bit => simp [optLoop, h, ih, Nat.or_assoc]

/-- `strcpyAt` never changes the buffer's length. -/
theorem strcpyAt_length (cs : List Char) :
    ∀ buf p, (strcpyAt buf p cs).length = buf.length := by
  induction cs with
  | nil => intro buf p; rfl
  | cons c cs ih => intro buf p; simp [strcpyAt, ih]

/-- `optLoop` never changes the buffer's length. -/
theorem optLoop_buf_length (ts : List (List Char)) :
    ∀ f cur buf, (optLoop ts f cur buf).2.2.length = buf.length := by
  induction ts with
  | nil => intro f cur buf; rfl
  | cons t rest ih =>
    intro f cur buf
    cases h : optionFlag t with
    | none => simp [optLoop, h, ih, strcpyAt_length]
    | some bit => simp [optLoop, h, ih]

/-- The final cursor of `optLoop` is the initial cursor plus the total
length of all tokens (the cursor advances for every token). -/
theorem optLoop_cursor (ts : List (List Char)) :
    ∀ f cur buf, (optLoop ts f cur buf).2.1 = cur + (ts.map List.length).sum := by
  induction ts with
  | nil => intro f cur buf; simp [optLoop]
  | cons t rest ih =>
    intro f cur buf
    cases h : optionFlag t with
    | none => simp [optLoop, h, ih]; omega
    | some bit => simp [optLoop, h, ih]; omega

/-- The tokens produced by `tokAux` use at most the input characters. -/
theorem tokAux_sum_le (d : Char → Bool) :
    ∀ (cs acc : List Char),
      ((tokAux d acc cs).map List.length).sum ≤ acc.length + cs.length := by
  intro cs
  induction cs with
  | nil =>
    intro acc
    by_cases h : acc.isEmpty <;> simp [tokAux, h]
  | cons c cs ih =>
    intro acc
    by_cases hd : d c
    · by_cases he : acc.isEmpty
      · have := ih []
        simp [tokAux, hd, he]
        simp at this
        omega
      · have := ih []
        simp [tokAux, hd, he]
        simp at this
        omega
    · have := ih (c :: acc)
      simp [tokAux, hd]
      simp at this
      omega

/-- A NUL stored at position `p` bounds the C-string read of the buffer. -/
theorem takeWhile_nul_le :
    ∀ (buf : List Char) (p : Nat), buf[p]? = some nulChar →
      (buf.takeWhile (fun c => c ≠ nulChar)).length ≤ p := by
  intro buf
  induction buf with
  | nil => intro p h; simp at h
  | cons c rest ih =>
    intro p h
    cases p with
    | zero =>
      simp at h
      subst h
      simp [List.takeWhile]
    | succ p =>
      simp at h
      by_cases hc : c = nulChar
      · simp [List.takeWhile, hc]
      · simp [List.takeWhile, hc]
        simpa using ih p h

/-- Reading back the position just overwritten. -/
theorem get_set_self :
    ∀ (l : List Char) (p : Nat) (c : Char), p < l.length →
      (l.set p c)[p]? = some c := by
  intro l
  induction l with
  | nil => intro p c h; simp at h
  | cons a l ih =>
    intro p c h
    cases p with
    | zero => simp [List.set]
    | succ p =>
      simp [List.set]
      exact ih p c (by simpa using h)

/-- Fork calls counted across concatenation. -/
theorem forkCount_append (a b : List Event) :
    forkCount (a ++ b) = forkCount a + forkCount b := by
  simp [forkCount, List.filter_append]

/-- The mount phase's line loop issues no fork call. -/
theorem processLines_forkCount (junk : MountPoint) :
    ∀ (lines : List String) (n : Nat), forkCount (processLines junk lines n) = 0 := by
  intro lines
  induction lines with
  | nil => intro n; rfl
  | cons l rest ih =>
    intro n
    unfold processLines
    by_cases h : skippableLine (trimNewLine l)
    · simp [h, ih]
    · by_cases h2 : (parseMountPoint (trimNewLine l) junk).1 ≠ 0
      · simp [h, h2, forkCount, isForkEv, List.filter] at *
        exact ih (n + 1)
      · simp [h, h2, forkCount, isForkEv, List.filter] at *
        exact ih (n + 1)

/-- The mount phase issues no fork call. -/
theorem mountFilesystems_forkCount (junk : MountPoint) :
    ∀ fstab, forkCount (mountFilesystems junk fstab).1 = 0 := by
  intro fstab
  cases fstab with
  | none => rfl
  | some lines => exact processLines_forkCount junk lines 1

/-- A line with fewer than 4 fields makes `parseMountPoint` return 0
without touching the entry. -/
theorem parseMountPoint_short (line : String) (e : MountPoint)
    (h : ((strtokAll isFieldSep line.data).take 6).length < 4) :
    parseMountPoint line e = (0, e) := by
  have h' : (strtokAll isFieldSep line.data).length < 4 := by
    rw [List.length_take] at h
    omega
  unfold parseMountPoint
  simp [h']

/-- Every event stream of the wait loop starts (if non-empty) with a wait
on the pid being supervised. -/
theorem superviseFrom_head (pid : Nat) :
    ∀ (ss : List Nat) (e : Event), (superviseFrom pid ss).head? = some e →
      ∃ s, e = Event.waitEv pid s := by
  intro ss e h
  cases ss with
  | nil => simp [superviseFrom] at h
  | cons s rest =>
    unfold superviseFrom at h
    by_cases hw : wifexited s <;> simp [hw] at h <;> exact ⟨s, h.symm⟩

/-- The adjacent-event discipline holds along the wait loop's events. -/
theorem superviseFrom_chain (ss : List Nat) :
    ∀ pid, List.Chain' (fun a b => rewaitOk a b ∧ respawnPrec a b)
      (superviseFrom pid ss) := by
  induction ss with
  | nil => intro pid; simp [superviseFrom]
  | cons s rest ih =>
    intro pid
    by_cases hw : wifexited s
    · rw [superviseFrom, if_pos hw]
      rw [List.chain'_cons]
      constructor
      · constructor
        · intro p s' heq hfalse
          obtain ⟨hp, hs⟩ := Event.waitEv.inj heq
          rw [← hs] at hfalse
          rw [hw] at hfalse
          exact absurd hfalse (by simp)
        · intro q heq
          exact ⟨pid, s, rfl, hw, (Event.forkEv.inj heq).symm⟩
      · rw [List.chain'_cons']
        constructor
        · intro b hb
          obtain ⟨s', rfl⟩ := superviseFrom_head (pid + 1) rest b (Option.mem_def.mp hb)
          constructor
          · intro p s₀ heq
            exact absurd heq (by simp)
          · intro q heq
            exact absurd heq (by simp)
        · exact ih (pid + 1)
    · rw [superviseFrom, if_neg hw]
      rw [List.chain'_cons']
      constructor
      · intro b hb
        obtain ⟨s', rfl⟩ := superviseFrom_head pid rest b (Option.mem_def.mp hb)
        constructor
        · intro p s₀ heq hfalse
          obtain ⟨hp, hs⟩ := Event.waitEv.inj heq
          exact ⟨s', by rw [hp]⟩
        · intro q heq
          exact absurd heq (by simp)
      · exact ih pid

/-- The adjacent-event discipline holds along the whole supervision loop. -/
theorem supervise_chain (waits : List Nat) :
    List.Chain' (fun a b => rewaitOk a b ∧ respawnPrec a b) (supervise waits) := by
  unfold supervise
  rw [List.chain'_cons']
  constructor
  · intro b hb
    obtain ⟨s, rfl⟩ := superviseFrom_head 1 waits b (Option.mem_def.mp hb)
    constructor
    · intro p s₀ heq
      exact absurd heq (by simp)
    · intro q heq
      exact absurd heq (by simp)
  · exact superviseFrom_chain waits 1

/-- The wait loop forks one replacement per normal-exit status. -/
theorem superviseFrom_forkCount (ss : List Nat) :
    ∀ pid, forkCount (superviseFrom pid ss) = (ss.filter wifexited).length := by
  induction ss with
  | nil => intro pid; rfl
  | cons s rest ih =>
    intro pid
    by_cases hw : wifexited s
    · rw [superviseFrom, if_pos hw]
      simp [forkCount, List.filter, isForkEv, hw] at *
      exact ih (pid + 1)
    · rw [superviseFrom, if_neg hw]
      simp [forkCount, List.filter, isForkEv, hw] at *
      exact ih pid

/-- The wait loop records one normal-exit wait per normal-exit status. -/
theorem superviseFrom_exitedWaitCount (ss : List Nat) :
    ∀ pid, exitedWaitCount (superviseFrom pid ss) = (ss.filter wifexited).length := by
  induction ss with
  | nil => intro pid; rfl
  | cons s rest ih =>
    intro pid
    by_cases hw : wifexited s
    · rw [superviseFrom, if_pos hw]
      simp [exitedWaitCount, List.filter, isExitedWait, hw] at *
      exact ih (pid + 1)
    · rw [superviseFrom, if_neg hw]
      simp [exitedWaitCount, List.filter, isExitedWait, hw] at *
      exact ih pid

/-- Claim C1 (code-bug evidence).  When the mount table cannot be opened,
`mountFilesystems` does log the failure and return `EXIT_FAILURE` before
any mount attempt — but `NeonMain` discards that result: with an accessible
shell it still enters the supervision loop (the first fork occurs) and
never exits with failure, contradicting the claim that the whole process
exits with failure and the supervision loop is never entered. -/
theorem mount_open_failure_is_not_process_fatal (junk : MountPoint) (waits : List Nat) :
    mountFilesystems junk none = ([Event.openFailLog], EXIT_FAILURE)
    ∧ (NeonMain junk none true waits).2 = none
    ∧ Event.forkEv 1 ∈ (NeonMain junk none true waits).1 := by
  refine ⟨rfl, rfl, ?_⟩
  show Event.forkEv 1 ∈ [Event.openFailLog] ++ supervise waits
  rw [supervise]
  exact List.mem_append_right _ (List.mem_cons_self _ _)

/-- Claim C2 (code-bug evidence).  On the options string `"ro,x"` the
translation sets the read-only bit, but the residual string is `"rox"`:
the recognized token `ro` is not removed from the residual output (the
write cursor advances past recognized tokens without compacting), and the
unrecognized token `x` is not retained at its place.  The claim would
require residual `"x"`. -/
theorem recognized_token_survives_in_residual :
    parseMountOptions "ro,x" = (MS_RDONLY, "rox") := by decide

/-- Claim C3.  On the four-line example table, processing produces exactly
the two mount attempts (the comment and the blank line are skipped);
entry 1's flag set contains the no-exec bit and its residual options are
`"rw"`; entry 2 parses with fsType `"proc"`, dump frequency 0 and fsck
pass 0 — all independently of the uninitialised entry record `junk`. -/
theorem example_table_processing (junk : MountPoint) :
    mountFilesystems junk
        (some ["# comment", "tmpfs /tmp tmpfs rw,noexec 0 0", "",
               "proc /proc proc defaults 0 0"])
      = ([Event.mountAttempt "tmpfs" "/tmp" "tmpfs" MS_NOEXEC "rw",
          Event.mountAttempt "proc" "/proc" "proc" 0 "defaults"], EXIT_SUCCESS)
    ∧ (parseMountOptions "rw,noexec").1 &&& MS_NOEXEC ≠ 0
    ∧ (parseMountOptions "rw,noexec").2 = "rw"
    ∧ parseMountPoint "proc /proc proc defaults 0 0" junk
        = (1, ⟨"proc", "/proc", "proc", "defaults", 0, 0⟩) := by
  refine ⟨rfl, by decide, by decide, rfl⟩

/-- Claim C4.  For every options string, the flags bitmask returned by the
translation is exactly the bitwise OR of the flag bits of the recognized
tokens present, in order; tokens outside the recognized set contribute no
flag bit. -/
theorem translation_flags_exact (s : String) :
    (parseMountOptions s).1
      = ((strtokAll isComma s.data).filterMap optionFlag).foldr
          (fun a b => a ||| b) 0 := by
  unfold parseMountOptions
  simp [optLoop_flags]

/-- Claim C5.  For every input options string, the residual options string
is no longer than the input. -/
theorem residual_length_le (s : String) :
    (parseMountOptions s).2.length ≤ s.length := by
  have hcur : (optLoop (strtokAll isComma s.data) 0 0 (s.data ++ [nulChar])).2.1
      = ((strtokAll isComma s.data).map List.length).sum := by
    simpa using optLoop_cursor (strtokAll isComma s.data) 0 0 (s.data ++ [nulChar])
  have hsum : ((strtokAll isComma s.data).map List.length).sum ≤ s.data.length := by
    simpa [strtokAll] using tokAux_sum_le isComma s.data []
  have hlen : (optLoop (strtokAll isComma s.data) 0 0 (s.data ++ [nulChar])).2.2.length
      = s.data.length + 1 := by
    rw [optLoop_buf_length]
    simp
  have hlt : (optLoop (strtokAll isComma s.data) 0 0 (s.data ++ [nulChar])).2.1
      < (optLoop (strtokAll isComma s.data) 0 0 (s.data ++ [nulChar])).2.2.length := by
    omega
  have hbound := takeWhile_nul_le _ _ (get_set_self _ _ nulChar hlt)
  show (String.mk (cStringOf
      ((optLoop (strtokAll isComma s.data) 0 0 (s.data ++ [nulChar])).2.2.set
        (optLoop (strtokAll isComma s.data) 0 0 (s.data ++ [nulChar])).2.1
        nulChar))).length ≤ s.length
  have hmk : ∀ (l : List Char), (String.mk l).length = l.length := fun l => rfl
  rw [hmk]
  unfold cStringOf
  exact le_trans hbound (le_trans (le_of_eq hcur) hsum)

/-- Claim C6.  A non-comment, non-empty line with fewer than 4
whitespace-delimited fields is reported invalid: its processing emits only
the per-line skip log (no mount attempt), and the loop continues with the
next line, whose line number is one higher. -/
theorem short_line_skipped_and_logged (junk : MountPoint) (l : String)
    (rest : List String) (n : Nat)
    (h1 : skippableLine (trimNewLine l) = false)
    (h2 : ((strtokAll isFieldSep (trimNewLine l).data).take 6).length < 4) :
    processLines junk (l :: rest) n
      = Event.skipLineLog n :: processLines junk rest (n + 1) := by
  conv_lhs => rw [processLines]
  simp [h1, parseMountPoint_short (trimNewLine l) junk h2]

/-- Witness for claim C6: the concrete line `"a b c"` (3 fields) is
skipped with a log and processing continues with the next line. -/
theorem short_line_skipped_and_logged_witness :
    (skippableLine (trimNewLine "a b c") = false
      ∧ ((strtokAll isFieldSep (trimNewLine "a b c").data).take 6).length < 4)
    ∧ processLines uninitEntry ["a b c", "x y z w"] 1
        = Event.skipLineLog 1 :: processLines uninitEntry ["x y z w"] 2 :=
  ⟨⟨by decide, by decide⟩,
    short_line_skipped_and_logged uninitEntry "a b c" ["x y z w"] 1
      (by decide) (by decide)⟩

/-- Claim C7.  If the shell binary is missing or non-executable, `NeonMain`
logs the access failure and returns `EXIT_FAILURE` immediately after the
mount phase: the event trace is exactly the mount phase's events followed
by the access-failure log, and it contains zero fork calls. -/
theorem shell_access_failure_fatal_no_fork (junk : MountPoint)
    (fstab : Option (List String)) (waits : List Nat) :
    NeonMain junk fstab false waits
      = ((mountFilesystems junk fstab).1 ++ [Event.accessFailLog], some EXIT_FAILURE)
    ∧ forkCount (NeonMain junk fstab false waits).1 = 0 := by
  constructor
  · rfl
  · show forkCount ((mountFilesystems junk fstab).1 ++ [Event.accessFailLog]) = 0
    rw [forkCount_append, mountFilesystems_forkCount]
    rfl

/-- Claim C8.  Along the supervision loop's event trace, every wait that
returned a non-exit status (child stopped or signaled without exiting) is
immediately followed — when the trace continues — by another wait on the
same child identifier, never by a fork; and every fork is immediately
preceded by a wait that returned a normal-exit status for the current
child, of which the forked child is the replacement. -/
theorem wait_discipline_chain (waits : List Nat) :
    List.Chain' (fun a b => rewaitOk a b ∧ respawnPrec a b) (supervise waits) :=
  supervise_chain waits

/-- Claim C9.  After `N` consecutive normal child exits the supervisor has
forked `N + 1` times — the initial spawn plus exactly `N` respawns — has
recorded exactly `N` wait calls returning a normal-exit status, and each
respawn is immediately preceded by exactly one such wait call. -/
theorem respawn_count_exact (waits : List Nat)
    (h : ∀ s ∈ waits, wifexited s = true) :
    forkCount (supervise waits) = waits.length + 1
    ∧ exitedWaitCount (supervise waits) = waits.length
    ∧ List.Chain' respawnPrec (supervise waits) := by
  have hf : waits.filter wifexited = waits := List.filter_eq_self.mpr (by simpa using h)
  refine ⟨?_, ?_, ?_⟩
  · show forkCount (Event.forkEv 1 :: superviseFrom 1 waits) = waits.length + 1
    simp [forkCount, List.filter, isForkEv]
    have := superviseFrom_forkCount waits 1
    simp [forkCount] at this
    rw [this, hf]
  · show exitedWaitCount (Event.forkEv 1 :: superviseFrom 1 waits) = waits.length
    simp [exitedWaitCount, List.filter, isExitedWait]
    have := superviseFrom_exitedWaitCount waits 1
    simp [exitedWaitCount] at this
    rw [this, hf]
  · exact (supervise_chain waits).imp (fun a b hab => hab.2)

/-- Witness for claim C9: two consecutive normal exits (status 0) give
three forks (one initial spawn, two respawns), two normal-exit waits, and
the respawn-precedence discipline. -/
theorem respawn_count_exact_witness :
    (∀ s ∈ [0, 0], wifexited s = true)
    ∧ (forkCount (supervise [0, 0]) = 2 + 1
       ∧ exitedWaitCount (supervise [0, 0]) = 2
       ∧ List.Chain' respawnPrec (supervise [0, 0])) :=
  ⟨by decide, respawn_count_exact [0, 0] (by decide)⟩

/-- Claim C10.  When `parseMountPoint` fails (returns 0, i.e. fewer than 4
fields), the entry record it was handed is returned completely unmodified:
failure is atomic with respect to the entry. -/
theorem parse_failure_leaves_entry_unchanged (line : String) (entry : MountPoint)
    (h : (parseMountPoint line entry).1 = 0) :
    (parseMountPoint line entry).2 = entry := by
  by_cases hc : ((strtokAll isFieldSep line.data).take 6).length < 4
  · rw [parseMountPoint_short line entry hc]
  · exfalso
    have h' : ¬ (strtokAll isFieldSep line.data).length < 4 := by
      rw [List.length_take] at hc
      omega
    unfold parseMountPoint at h
    simp [h'] at h

/-- Witness for claim C10: on the 2-field line `"a b"` parsing fails and a
concrete pre-existing entry is returned untouched. -/
theorem parse_failure_leaves_entry_unchanged_witness :
    (parseMountPoint "a b" ⟨"s", "t", "f", "o", 7, 9⟩).1 = 0
    ∧ (parseMountPoint "a b" ⟨"s", "t", "f", "o", 7, 9⟩).2
        = ⟨"s", "t", "f", "o", 7, 9⟩ :=
  ⟨by decide,
    parse_failure_leaves_entry_unchanged "a b" ⟨"s", "t", "f", "o", 7, 9⟩ (by decide)⟩

end Aurora
